import Mathlib

/-!
Verification development for the cron-driven scheduling and execution engine
of the cricket runner manager (source files geppetto/scheduler.py,
geppetto/executor.py, geppetto/db/client.py, geppetto/data/models/execution.py,
main.py).

Times are modelled as integers counting minutes (for the schedule resolver)
or abstract integer instants (for the scheduler and executor).  Machine
subprocesses, the database and the filesystem are external collaborators;
their observable outcomes enter the model as explicit inputs.
-/

namespace Cricket

/-! ## Schedule resolver (scheduler.py, ProjectScheduler._get_next_run)

The resolver delegates to the external croniter and pytz libraries.  We embed
their documented contract: a cron expression is kept in parsed form as the
sets of field values it allows, a timezone is a fixed offset in minutes east
of UTC, and the next run is the earliest cron-matching minute strictly after
the base instant, searched forward minute by minute exactly as croniter does.
-/

/-- Parsed cron expression: the allowed values for each of the five fields.
This is the parsed form produced by croniter from the textual expression;
the day-of-month and day-of-week fields are combined conjunctively. -/
structure Cron where
  minutes : List Int
  hours : List Int
  daysOfMonth : List Int
  months : List Int
  daysOfWeek : List Int
deriving DecidableEq, Repr

/-- Day number (days since 1970-01-01) of a minute instant. -/
def dayNumber (t : Int) : Int := t.ediv 1440

/-- Minute-of-hour component of a minute instant. -/
def minuteOf (t : Int) : Int := t.emod 60

/-- Hour-of-day component of a minute instant. -/
def hourOf (t : Int) : Int := (t.ediv 60).emod 24

/-- Day of week of a minute instant, 0 = Sunday (1970-01-01 was a Thursday). -/
def dowOf (t : Int) : Int := (dayNumber t + 4).emod 7

/-- Gregorian civil date (year, month, day) from a day number, by the
standard era-based conversion used by calendar libraries. -/
def civilFromDay (day : Int) : Int × Int × Int :=
  let z := day + 719468
  let era := z.ediv 146097
  let doe := z.emod 146097
  let yoe := (doe - doe.ediv 1460 + doe.ediv 36524 - doe.ediv 146096).ediv 365
  let y := yoe + era * 400
  let doy := doe - (365 * yoe + yoe.ediv 4 - yoe.ediv 100)
  let mp := (5 * doy + 2).ediv 153
  let d := doy - (153 * mp + 2).ediv 5 + 1
  let m := if mp < 10 then mp + 3 else mp - 9
  (if m ≤ 2 then y + 1 else y, m, d)

/-- Whether a local minute instant matches a cron expression. -/
def cronMatches (c : Cron) (t : Int) : Bool :=
  let day := dayNumber t
  let ymd := civilFromDay day
  c.minutes.contains (minuteOf t) && c.hours.contains (hourOf t) &&
    c.daysOfMonth.contains ymd.2.2 && c.months.contains ymd.2.1 &&
    c.daysOfWeek.contains (dowOf t)

/-- Forward minute-by-minute search for the first cron match, bounded by
fuel, mirroring the bounded forward scan croniter performs. -/
def searchNext (c : Cron) : Nat → Int → Option Int
  | 0, _ => none
  | fuel + 1, t => if cronMatches c t then some t else searchNext c fuel (t + 1)

/-- Search bound: one year of minutes, matching the bounded forward search of
the cron library. -/
def searchLimit : Nat := 527040

/-- Model of ProjectScheduler._get_next_run with an explicit base time:
convert the UTC base to local time, take the earliest cron-matching local
minute strictly after it, convert back to UTC.  Returns none when no match
exists within the search bound, the case in which croniter raises. -/
def getNextRun (c : Cron) (tzOffset : Int) (baseUtc : Int) : Option Int :=
  (searchNext c searchLimit (baseUtc + tzOffset + 1)).map (fun tLocal => tLocal - tzOffset)

theorem searchNext_some {c : Cron} :
    ∀ {fuel : Nat} {t r : Int}, searchNext c fuel t = some r →
      t ≤ r ∧ cronMatches c r = true := by
  intro fuel
  induction fuel with
  | zero => intro t r h; simp [searchNext] at h
  | succ n ih =>
    intro t r h
    by_cases hm : cronMatches c t
    · simp [searchNext, hm] at h
      exact ⟨le_of_eq h, h ▸ hm⟩
    · simp [searchNext, hm] at h
      have := ih h
      exact ⟨by omega, this.2⟩

/-- C6: for every cron expression, timezone offset and base instant on which
the resolver succeeds, the resolved next run is strictly after the base
instant (never equal), matches the cron expression once converted to local
time, and recomputation from the same base yields the same instant. -/
theorem getNextRun_spec (c : Cron) (tz base n : Int)
    (h : getNextRun c tz base = some n) :
    base < n ∧ cronMatches c (n + tz) = true ∧
      ∀ m, getNextRun c tz base = some m → m = n := by
  unfold getNextRun at h
  cases hs : searchNext c searchLimit (base + tz + 1) with
  | none => rw [hs] at h; simp at h
  | some r =>
    rw [hs] at h
    simp at h
    obtain ⟨hle, hmatch⟩ := searchNext_some hs
    refine ⟨by omega, ?_, ?_⟩
    · have : n + tz = r := by omega
      rw [this]; exact hmatch
    · intro m hm
      unfold getNextRun at hm
      rw [hs] at hm
      simp at hm
      omega

/-- Hourly cron: minute zero of every hour, any day. -/
def cronHourly : Cron :=
  { minutes := [0]
    hours := (List.range 24).map Int.ofNat
    daysOfMonth := (List.range 31).map (fun k => (k : Int) + 1)
    months := (List.range 12).map (fun k => (k : Int) + 1)
    daysOfWeek := (List.range 7).map Int.ofNat }

theorem getNextRun_spec_witness :
    getNextRun cronHourly 0 135 = some 180 ∧
      ((135 : Int) < 180 ∧ cronMatches cronHourly (180 + 0) = true ∧
        ∀ m, getNextRun cronHourly 0 135 = some m → m = 180) :=
  ⟨by decide, getNextRun_spec cronHourly 0 135 180 (by decide)⟩

/-! ## Data model (geppetto/data/models/execution.py)

The uninterpreted configuration blob is kept as an association list; it is only
handed to the external generator.  The cron expression field holds the
parsed form and the timezone field the fixed offset, as in the resolver
model above. -/

/-- ProjectConfig from execution.py. -/
structure ProjectConfig where
  id : String
  name : String
  config : List (String × String)
  cron_expression : Cron
  timezone : Int
  allow_concurrent : Bool
deriving DecidableEq, Repr

/-- ScheduledProject from execution.py. -/
structure ScheduledProject where
  project : ProjectConfig
  next_run : Int
  execution_id : Option Nat
deriving DecidableEq, Repr

/-- ExecutionStatus from execution.py. -/
inductive ExecutionStatus where
  | pending
  | running
  | success
  | failed
  | cancelled
  | timeout
deriving DecidableEq, Repr

/-- ProjectExecution from execution.py.  Records held by the database always
carry an id, so the id field is total here. -/
structure ProjectExecution where
  id : Nat
  project_id : String
  status : ExecutionStatus
  scheduled_for : Int
  started_at : Option Int := none
  finished_at : Option Int := none
  exit_code : Option Int := none
  error_message : Option String := none
  created_at : Option Int := none
deriving DecidableEq, Repr

/-- RunnerStatus from execution.py. -/
structure RunnerStatus where
  is_running : Bool := false
  projects_in_queue : Nat := 0
  currently_executing : Option String := none
  total_executions : Nat := 0
  successful_executions : Nat := 0
  failed_executions : Nat := 0
  last_check_time : Option Int := none
deriving DecidableEq, Repr

/-! ## Job queue (geppetto/scheduler.py, ProjectScheduler)

The priority queue is the Python list managed by heapq; we model it as the
multiset of its entries, with the heap root modelled as a minimal element
under the tuple ordering and heappush as insertion.  Python dictionaries
become association lists with replace-on-insert semantics.  The resolver
self._get_next_run is passed in as the resolve argument; every time the
Python code reads the wall clock the instant is an explicit parameter. -/

/-- One heap entry: the tuple pushed by the scheduler,
(next_run timestamp, project id, scheduled project). -/
abbrev QueueEntry := Int × String × ScheduledProject

/-- Strict lexicographic comparison of heap entries on
(next_run timestamp, project id), the order heapq uses; the third tuple
component is never reached while project ids are distinct. -/
def entryLt (a b : QueueEntry) : Bool :=
  decide (a.1 < b.1) || (decide (a.1 = b.1) && decide (a.2.1 < b.2.1))

/-- Minimal entry of the queue multiset: the heap root. -/
def qMin : List QueueEntry → Option QueueEntry
  | [] => none
  | e :: es =>
    match qMin es with
    | none => some e
    | some m => if entryLt m e then some m else some e

/-- heapq.heappush on the queue multiset. -/
def heapPush (q : List QueueEntry) (e : QueueEntry) : List QueueEntry := q ++ [e]

/-- Python dictionary lookup on an association list. -/
def dictLookup {α : Type} (d : List (String × α)) (k : String) : Option α :=
  (d.find? (fun p => decide (p.1 = k))).map (fun p => p.2)

/-- Python dictionary insertion: replace the binding when the key is
present, append otherwise. -/
def dictInsert {α : Type} (d : List (String × α)) (k : String) (v : α) :
    List (String × α) :=
  if d.any (fun p => decide (p.1 = k)) then
    d.map (fun p => if p.1 = k then (k, v) else p)
  else d ++ [(k, v)]

/-- In-memory scheduler state: the heap, the project map and the status
counters (self._queue, self._projects, self._status). -/
structure SchedulerState where
  queue : List QueueEntry
  projects : List (String × ProjectConfig)
  status : RunnerStatus
deriving DecidableEq, Repr

/-- ProjectScheduler.load_projects: clear the queue and the project map,
then insert every fetched project with a next run resolved from now. -/
def loadProjects (resolve : ProjectConfig → Int → Int)
    (fetched : List ProjectConfig) (now : Int) (s : SchedulerState) :
    SchedulerState :=
  let result := fetched.foldl
    (fun acc p =>
      (heapPush acc.1 (resolve p now, p.id, ⟨p, resolve p now, none⟩),
       dictInsert acc.2 p.id p))
    (([], []) : List QueueEntry × List (String × ProjectConfig))
  { queue := result.1
    projects := result.2
    status := { s.status with projects_in_queue := result.1.length } }

/-- ProjectScheduler.refresh_projects: rebuild the queue from the freshly
fetched list, keeping the existing next run (and entry) of every project
already queued, resolving a fresh next run for newly appearing projects,
and dropping entries whose project is absent from the fetched list. -/
def refreshProjects (resolve : ProjectConfig → Int → Int)
    (fetched : List ProjectConfig) (now : Int) (s : SchedulerState) :
    SchedulerState :=
  let current := s.queue.foldl (fun d e => dictInsert d e.2.1 e.2.2) []
  let result := fetched.foldl
    (fun acc p =>
      let sched : ScheduledProject :=
        match dictLookup current p.id with
        | some old => { old with project := p }
        | none => ⟨p, resolve p now, none⟩
      (heapPush acc.1 (sched.next_run, p.id, sched), dictInsert acc.2 p.id p))
    (([], []) : List QueueEntry × List (String × ProjectConfig))
  { queue := result.1
    projects := result.2
    status := { s.status with projects_in_queue := result.1.length } }

/-- ProjectScheduler._reschedule_project: after an execution, push a fresh
entry for the project resolved from the current instant; do nothing when
the project is no longer in the project map. -/
def rescheduleProject (resolve : ProjectConfig → Int → Int)
    (projectId : String) (now : Int) (s : SchedulerState) : SchedulerState :=
  match dictLookup s.projects projectId with
  | none => s
  | some p =>
    let nextRun := resolve p now
    let q := heapPush s.queue (nextRun, projectId, ⟨p, nextRun, none⟩)
    { s with queue := q
             status := { s.status with projects_in_queue := q.length } }

/-- ProjectScheduler.pop_if_due: return and remove the heap root when its
timestamp is not after now, otherwise return nothing and leave the state
untouched. -/
def popIfDue (s : SchedulerState) (now : Int) :
    Option ScheduledProject × SchedulerState :=
  match qMin s.queue with
  | none => (none, s)
  | some e =>
    if e.1 ≤ now then
      let q := s.queue.erase e
      (some e.2.2,
        { s with queue := q
                 status := { s.status with projects_in_queue := q.length } })
    else (none, s)

/-! ### Queue lemmas -/

theorem foldl_pushEntries (entry : ProjectConfig → QueueEntry)
    (upd : List (String × ProjectConfig) → ProjectConfig →
      List (String × ProjectConfig)) :
    ∀ (L : List ProjectConfig)
      (acc : List QueueEntry × List (String × ProjectConfig)),
      (L.foldl (fun a p => (heapPush a.1 (entry p), upd a.2 p)) acc).1 =
        acc.1 ++ L.map entry := by
  intro L
  induction L with
  | nil => intro acc; simp
  | cons p L ih =>
    intro acc
    simp only [List.foldl_cons, List.map_cons]
    rw [ih]
    simp [heapPush]

theorem loadProjects_queue (resolve : ProjectConfig → Int → Int)
    (fetched : List ProjectConfig) (now : Int) (s : SchedulerState) :
    (loadProjects resolve fetched now s).queue =
      fetched.map (fun p => (resolve p now, p.id, ⟨p, resolve p now, none⟩)) := by
  show (fetched.foldl
      (fun acc p =>
        (heapPush acc.1 (resolve p now, p.id, ⟨p, resolve p now, none⟩),
         dictInsert acc.2 p.id p))
      (([], []) : List QueueEntry × List (String × ProjectConfig))).1 = _
  have h := foldl_pushEntries
    (fun p => (resolve p now, p.id,
      (⟨p, resolve p now, none⟩ : ScheduledProject)))
    (fun d p => dictInsert d p.id p) fetched ([], [])
  simpa using h

/-- The entry refresh_projects builds for one fetched project, given the
dictionary of currently queued projects. -/
def refreshEntry (resolve : ProjectConfig → Int → Int)
    (current : List (String × ScheduledProject)) (now : Int)
    (p : ProjectConfig) : QueueEntry :=
  let sched : ScheduledProject :=
    match dictLookup current p.id with
    | some old => { old with project := p }
    | none => ⟨p, resolve p now, none⟩
  (sched.next_run, p.id, sched)

theorem refreshProjects_queue (resolve : ProjectConfig → Int → Int)
    (fetched : List ProjectConfig) (now : Int) (s : SchedulerState) :
    (refreshProjects resolve fetched now s).queue =
      fetched.map
        (refreshEntry resolve
          (s.queue.foldl (fun d e => dictInsert d e.2.1 e.2.2) []) now) := by
  show (fetched.foldl
      (fun acc p =>
        let sched : ScheduledProject :=
          match dictLookup (s.queue.foldl (fun d e => dictInsert d e.2.1 e.2.2) []) p.id with
          | some old => { old with project := p }
          | none => ⟨p, resolve p now, none⟩
        (heapPush acc.1 (sched.next_run, p.id, sched), dictInsert acc.2 p.id p))
      (([], []) : List QueueEntry × List (String × ProjectConfig))).1 = _
  have h := foldl_pushEntries
    (fun p =>
      let sched : ScheduledProject :=
        match dictLookup (s.queue.foldl (fun d e => dictInsert d e.2.1 e.2.2) []) p.id with
        | some old => { old with project := p }
        | none => ⟨p, resolve p now, none⟩
      (sched.next_run, p.id, sched))
    (fun d p => dictInsert d p.id p) fetched ([], [])
  simpa [refreshEntry] using h

theorem dictLookup_insert_self {α : Type} (d : List (String × α)) (k : String)
    (v : α) : dictLookup (dictInsert d k v) k = some v := by
  unfold dictInsert dictLookup
  by_cases h : d.any (fun p => decide (p.1 = k))
  · rw [if_pos h]
    rw [List.find?_map]
    have hpf : ((fun p : String × α => decide (p.1 = k)) ∘
        (fun p => if p.1 = k then (k, v) else p)) =
          fun p : String × α => decide (p.1 = k) := by
      funext x
      by_cases hx : x.1 = k <;> simp [Function.comp, hx]
    rw [hpf]
    simp only [List.any_eq_true, decide_eq_true_eq] at h
    obtain ⟨x, hx, hxk⟩ := h
    cases hf : d.find? (fun p => decide (p.1 = k)) with
    | none =>
      rw [List.find?_eq_none] at hf
      exact absurd (by simpa using hxk) (by simpa using hf x hx)
    | some y =>
      have hy : y.1 = k := by simpa using List.find?_some hf
      simp [hy]
  · rw [if_neg h]
    rw [List.find?_append]
    have hnone : d.find? (fun p => decide (p.1 = k)) = none := by
      rw [List.find?_eq_none]
      intro x hx hxk
      exact h (List.any_eq_true.mpr ⟨x, hx, hxk⟩)
    rw [hnone]
    simp [List.find?]

theorem dictLookup_insert_other {α : Type} (d : List (String × α))
    (k k' : String) (v : α) (h : k' ≠ k) :
    dictLookup (dictInsert d k v) k' = dictLookup d k' := by
  unfold dictInsert dictLookup
  by_cases hany : d.any (fun p => decide (p.1 = k))
  · rw [if_pos hany]
    rw [List.find?_map]
    have hpf : ((fun p : String × α => decide (p.1 = k')) ∘
        (fun p => if p.1 = k then (k, v) else p)) =
          fun p : String × α => decide (p.1 = k') := by
      funext x
      by_cases hx : x.1 = k
      · simp [Function.comp, hx]
      · simp [Function.comp, hx]
    rw [hpf]
    cases hf : d.find? (fun p => decide (p.1 = k')) with
    | none => simp
    | some x =>
      have hx : x.1 = k' := by simpa using List.find?_some hf
      have hxk : ¬ x.1 = k := by rw [hx]; exact h
      simp [hxk]
  · rw [if_neg hany]
    rw [List.find?_append]
    cases hf : d.find? (fun p => decide (p.1 = k')) with
    | some x => simp [hf]
    | none =>
      simp [List.find?, Ne.symm h]

theorem dictLookup_fold_of_not_mem (q : List QueueEntry) :
    ∀ (d : List (String × ScheduledProject)) (pid : String),
      pid ∉ q.map (fun e => e.2.1) →
      dictLookup (q.foldl (fun d e => dictInsert d e.2.1 e.2.2) d) pid =
        dictLookup d pid := by
  induction q with
  | nil => intro d pid _; rfl
  | cons e q ih =>
    intro d pid hpid
    simp only [List.map_cons, List.mem_cons, not_or] at hpid
    simp only [List.foldl_cons]
    rw [ih _ pid (by simpa using hpid.2)]
    exact dictLookup_insert_other _ _ _ _ hpid.1

theorem dictLookup_fold_of_mem (q : List QueueEntry)
    (hq : (q.map (fun e => e.2.1)).Nodup) :
    ∀ (d : List (String × ScheduledProject)) (e : QueueEntry), e ∈ q →
      dictLookup (q.foldl (fun d e => dictInsert d e.2.1 e.2.2) d) e.2.1 =
        some e.2.2 := by
  induction q with
  | nil => intro d e he; cases he
  | cons a q ih =>
    intro d e he
    simp only [List.map_cons, List.nodup_cons] at hq
    rcases List.mem_cons.mp he with rfl | he
    · simp only [List.foldl_cons]
      rw [dictLookup_fold_of_not_mem q _ _ hq.1]
      exact dictLookup_insert_self _ _ _
    · simp only [List.foldl_cons]
      exact ih hq.2 _ e he

/-! ### Heap-root lemmas -/

theorem qMin_eq_none_iff (q : List QueueEntry) : qMin q = none ↔ q = [] := by
  cases q with
  | nil => simp [qMin]
  | cons e es =>
    simp only [qMin]
    cases qMin es with
    | none => simp
    | some m =>
      by_cases h : entryLt m e <;> simp [h]

theorem qMin_mem :
    ∀ {q : List QueueEntry} {m : QueueEntry}, qMin q = some m → m ∈ q := by
  intro q
  induction q with
  | nil => intro m h; simp [qMin] at h
  | cons e es ih =>
    intro m h
    simp only [qMin] at h
    cases hm : qMin es with
    | none =>
      rw [hm] at h
      simp at h
      simp [h]
    | some m0 =>
      rw [hm] at h
      by_cases hlt : entryLt m0 e
      · simp only [hlt, if_true] at h
        simp at h
        subst h
        exact List.mem_cons_of_mem _ (ih hm)
      · simp only [hlt, if_false] at h
        simp at h
        simp [h]

theorem entryLt_asymm {a b : QueueEntry} (h : entryLt a b = true) :
    entryLt b a = false := by
  unfold entryLt at h ⊢
  simp only [Bool.or_eq_true, Bool.and_eq_true, decide_eq_true_eq] at h
  simp only [Bool.or_eq_false_iff, Bool.and_eq_false_iff, decide_eq_false_iff_not]
  rcases h with h | ⟨heq, hlt⟩
  · constructor
    · omega
    · left; omega
  · constructor
    · omega
    · right
      intro hc
      exact lt_asymm hlt hc

theorem entryLt_false_trans {a b c : QueueEntry} (hab : entryLt a b = false)
    (hbc : entryLt b c = false) : entryLt a c = false := by
  unfold entryLt at hab hbc ⊢
  simp only [Bool.or_eq_false_iff, Bool.and_eq_false_iff,
    decide_eq_false_iff_not] at hab hbc ⊢
  obtain ⟨hab1, hab2⟩ := hab
  obtain ⟨hbc1, hbc2⟩ := hbc
  refine ⟨by omega, ?_⟩
  by_cases hac : a.1 = c.1
  · right
    have hb1 : b.1 = a.1 := by omega
    have h1 : ¬ a.2.1 < b.2.1 := by
      rcases hab2 with h | h
      · exact absurd (by omega) h
      · exact h
    have h2 : ¬ b.2.1 < c.2.1 := by
      rcases hbc2 with h | h
      · exact absurd (by omega) h
      · exact h
    intro hc
    rcases lt_or_le a.2.1 b.2.1 with hx | hx
    · exact h1 hx
    · exact h2 (lt_of_le_of_lt hx hc)
  · left; exact hac

theorem entryLt_trans {a b c : QueueEntry} (hab : entryLt a b = true)
    (hbc : entryLt b c = true) : entryLt a c = true := by
  unfold entryLt at hab hbc ⊢
  simp only [Bool.or_eq_true, Bool.and_eq_true, decide_eq_true_eq] at hab hbc ⊢
  rcases hab with h1 | ⟨he1, hs1⟩ <;> rcases hbc with h2 | ⟨he2, hs2⟩
  · left; omega
  · left; omega
  · left; omega
  · right; exact ⟨by omega, lt_trans hs1 hs2⟩

theorem entryLt_total {a b : QueueEntry} (h : a.2.1 ≠ b.2.1) :
    entryLt a b = true ∨ entryLt b a = true := by
  unfold entryLt
  simp only [Bool.or_eq_true, Bool.and_eq_true, decide_eq_true_eq]
  rcases lt_trichotomy a.1 b.1 with ht | ht | ht
  · left; left; exact ht
  · rcases lt_trichotomy a.2.1 b.2.1 with hs | hs | hs
    · left; right; exact ⟨ht, hs⟩
    · exact absurd hs h
    · right; right; exact ⟨ht.symm, hs⟩
  · right; left; exact ht

theorem qMin_isMin :
    ∀ {q : List QueueEntry} {m : QueueEntry}, qMin q = some m →
      ∀ e ∈ q, entryLt e m = false := by
  intro q
  induction q with
  | nil => intro m h; simp [qMin] at h
  | cons a es ih =>
    intro m h
    simp only [qMin] at h
    cases hm : qMin es with
    | none =>
      rw [hm] at h
      simp at h
      subst h
      rw [qMin_eq_none_iff] at hm
      subst hm
      intro e he
      simp at he
      subst he
      unfold entryLt
      simp only [Bool.or_eq_false_iff, Bool.and_eq_false_iff,
        decide_eq_false_iff_not]
      exact ⟨by omega, Or.inr (by simp)⟩
    | some m0 =>
      rw [hm] at h
      by_cases hlt : entryLt m0 a
      · simp only [hlt, if_true] at h
        simp at h
        subst h
        intro e he
        rcases List.mem_cons.mp he with rfl | he
        · exact entryLt_asymm hlt
        · exact ih hm e he
      · simp only [hlt, if_false] at h
        simp at h
        subst h
        intro e he
        rcases List.mem_cons.mp he with rfl | he
        · unfold entryLt
          simp only [Bool.or_eq_false_iff, Bool.and_eq_false_iff,
            decide_eq_false_iff_not]
          exact ⟨by omega, Or.inr (by simp)⟩
        · have hm0 := ih hm e he
          have hma : entryLt m0 a = false := by simpa using hlt
          exact entryLt_false_trans hm0 hma

/-- C5: on any queue whose entries carry pairwise distinct project ids,
pop_if_due returns nothing and leaves the whole state unchanged when the
queue is empty or the earliest timestamp is strictly after now; otherwise
it removes and returns exactly the entry that is strictly least under the
(next_run, project id) ordering. -/
theorem popIfDue_spec (s : SchedulerState) (now : Int)
    (hq : (s.queue.map (fun e => e.2.1)).Nodup) :
    (∀ s2, popIfDue s now = (none, s2) →
      s2 = s ∧ (s.queue = [] ∨
        ∃ e ∈ s.queue, (∀ x ∈ s.queue, entryLt x e = false) ∧ now < e.1)) ∧
    (∀ r s2, popIfDue s now = (some r, s2) →
      ∃ e ∈ s.queue, r = e.2.2 ∧ e.1 ≤ now ∧
        (∀ x ∈ s.queue, x ≠ e → entryLt e x = true) ∧
        s2.queue = s.queue.erase e) := by
  unfold popIfDue
  cases hm : qMin s.queue with
  | none =>
    rw [qMin_eq_none_iff] at hm
    constructor
    · intro s2 h
      simp at h
      exact ⟨h.symm, Or.inl hm⟩
    · intro r s2 h
      simp at h
  | some e =>
    have hmem := qMin_mem hm
    have hisMin := qMin_isMin hm
    by_cases hdue : e.1 ≤ now
    · simp only [if_pos hdue]
      constructor
      · intro s2 h
        simp at h
      · intro r s2 h
        simp only [Prod.mk.injEq] at h
        obtain ⟨hr, hs2⟩ := h
        refine ⟨e, hmem, ?_, hdue, ?_, ?_⟩
        · injection hr with hr2
          exact hr2.symm
        · intro x hx hne
          have hpid : x.2.1 ≠ e.2.1 :=
            fun hc => hne (List.inj_on_of_nodup_map hq hx hmem hc)
          rcases entryLt_total hpid with h1 | h1
          · exact absurd h1 (by simp [hisMin x hx])
          · exact h1
        · rw [← hs2]
    · simp only [if_neg hdue]
      constructor
      · intro s2 h
        simp only [Prod.mk.injEq] at h
        exact ⟨h.2.symm, Or.inr ⟨e, hmem, hisMin, by omega⟩⟩
      · intro r s2 h
        simp at h

/-- A concrete project used by the witnesses. -/
def projA : ProjectConfig :=
  { id := "alpha", name := "Alpha", config := [], cron_expression := cronHourly
    timezone := 0, allow_concurrent := false }

/-- A second concrete project used by the witnesses. -/
def projB : ProjectConfig :=
  { id := "beta", name := "Beta", config := [], cron_expression := cronHourly
    timezone := 0, allow_concurrent := false }

/-- Concrete two-entry scheduler state used by the pop witness: alpha due at
5, beta due at 3. -/
def popWitnessState : SchedulerState :=
  { queue := [(5, "alpha", ⟨projA, 5, none⟩), (3, "beta", ⟨projB, 3, none⟩)]
    projects := [("alpha", projA), ("beta", projB)]
    status := {} }

theorem popIfDue_spec_witness :
    ((popWitnessState.queue.map (fun e => e.2.1)).Nodup) ∧
      (∃ e ∈ popWitnessState.queue,
        (⟨projB, 3, none⟩ : ScheduledProject) = e.2.2 ∧ e.1 ≤ 4 ∧
        (∀ x ∈ popWitnessState.queue, x ≠ e → entryLt e x = true) ∧
        (popIfDue popWitnessState 4).2.queue = popWitnessState.queue.erase e) :=
  ⟨by decide,
    (popIfDue_spec popWitnessState 4 (by decide)).2 ⟨projB, 3, none⟩
      (popIfDue popWitnessState 4).2 (by decide)⟩

/-! ### Queue identity invariant (C3) -/

/-- Project ids of the queue entries. -/
def queuePids (q : List QueueEntry) : List String := q.map (fun e => e.2.1)

theorem loadProjects_pids (resolve : ProjectConfig → Int → Int)
    (fetched : List ProjectConfig) (now : Int) (s : SchedulerState) :
    queuePids (loadProjects resolve fetched now s).queue =
      fetched.map (fun p => p.id) := by
  unfold queuePids
  rw [loadProjects_queue, List.map_map]
  rfl

theorem refreshProjects_pids (resolve : ProjectConfig → Int → Int)
    (fetched : List ProjectConfig) (now : Int) (s : SchedulerState) :
    queuePids (refreshProjects resolve fetched now s).queue =
      fetched.map (fun p => p.id) := by
  unfold queuePids
  rw [refreshProjects_queue, List.map_map]
  apply List.map_congr_left
  intro p _
  simp only [Function.comp_apply]
  unfold refreshEntry
  cases dictLookup (s.queue.foldl
      (fun d e => dictInsert d e.2.1 e.2.2) []) p.id <;> rfl

/-- The mutating queue operations reachable from outside an execution:
wholesale load, reconciliation refresh, and the due-entry pop. -/
inductive QueueOp where
  | load (fetched : List ProjectConfig) (now : Int)
  | refresh (fetched : List ProjectConfig) (now : Int)
  | popDue (now : Int)

/-- Apply one queue operation. -/
def applyOp (resolve : ProjectConfig → Int → Int) (s : SchedulerState) :
    QueueOp → SchedulerState
  | QueueOp.load fetched now => loadProjects resolve fetched now s
  | QueueOp.refresh fetched now => refreshProjects resolve fetched now s
  | QueueOp.popDue now => (popIfDue s now).2

/-- Apply a sequence of queue operations, oldest first. -/
def applyOps (resolve : ProjectConfig → Int → Int) (s : SchedulerState) :
    List QueueOp → SchedulerState
  | [] => s
  | op :: ops => applyOps resolve (applyOp resolve s op) ops

/-- A fetched active list is well formed when its project ids are pairwise
distinct, which the id-keyed database guarantees. -/
def opWellFormed : QueueOp → Prop
  | QueueOp.load fetched _ => (fetched.map (fun p => p.id)).Nodup
  | QueueOp.refresh fetched _ => (fetched.map (fun p => p.id)).Nodup
  | QueueOp.popDue _ => True

theorem popIfDue_pids_nodup (s : SchedulerState) (now : Int)
    (h : (queuePids s.queue).Nodup) :
    (queuePids (popIfDue s now).2.queue).Nodup := by
  unfold popIfDue
  cases qMin s.queue with
  | none => exact h
  | some e =>
    by_cases hdue : e.1 ≤ now
    · simp only [if_pos hdue]
      exact ((List.erase_sublist e s.queue).map _).nodup h
    · simp only [if_neg hdue]
      exact h

/-- C3 (amended): starting from a queue with pairwise distinct project ids,
any sequence of load, refresh and pop_if_due operations whose fetched lists
carry distinct project ids leaves the queue without two entries for the
same project identity. -/
theorem queueOps_pids_nodup (resolve : ProjectConfig → Int → Int) :
    ∀ (ops : List QueueOp) (s : SchedulerState),
      (∀ op ∈ ops, opWellFormed op) → (queuePids s.queue).Nodup →
      (queuePids (applyOps resolve s ops).queue).Nodup := by
  intro ops
  induction ops with
  | nil => intro s _ hs; exact hs
  | cons op ops ih =>
    intro s hops hs
    refine ih _ (fun o ho => hops o (List.mem_cons_of_mem _ ho)) ?_
    have hop := hops op (List.mem_cons_self _ _)
    cases op with
    | load fetched now =>
      simp only [applyOp]
      rw [loadProjects_pids]
      exact hop
    | refresh fetched now =>
      simp only [applyOp]
      rw [refreshProjects_pids]
      exact hop
    | popDue now =>
      simp only [applyOp]
      exact popIfDue_pids_nodup s now hs

/-- Empty initial scheduler state. -/
def initState : SchedulerState := { queue := [], projects := [], status := {} }

/-- The resolver used by concrete scheduler witnesses: next run is one hour
after the base instant. -/
def resolveHour : ProjectConfig → Int → Int := fun _ t => t + 60

theorem queueOps_pids_nodup_witness :
    ((∀ op ∈ [QueueOp.load [projA, projB] 0, QueueOp.popDue 100,
        QueueOp.refresh [projA] 100], opWellFormed op) ∧
      (queuePids initState.queue).Nodup) ∧
      (queuePids (applyOps resolveHour initState
        [QueueOp.load [projA, projB] 0, QueueOp.popDue 100,
          QueueOp.refresh [projA] 100]).queue).Nodup :=
  ⟨⟨by intro op hop; fin_cases hop <;> simp [opWellFormed, projA, projB],
    by decide⟩,
    queueOps_pids_nodup resolveHour _ initState
      (by intro op hop; fin_cases hop <;> simp [opWellFormed, projA, projB])
      (by decide)⟩

/-- C3 counterexample: rescheduling a project that is still queued pushes a
second entry for the same project identity, so a load followed by a
reschedule leaves two entries for project alpha; the scheduler loop reaches
this very shape because refresh_projects re-adds the popped project before
_reschedule_project runs. -/
theorem reschedule_duplicates_entry :
    queuePids (rescheduleProject resolveHour "alpha" 50
        (loadProjects resolveHour [projA] 0 initState)).queue =
      ["alpha", "alpha"] ∧
    ¬ (queuePids (rescheduleProject resolveHour "alpha" 50
        (loadProjects resolveHour [projA] 0 initState)).queue).Nodup := by
  constructor
  · decide
  · decide

/-! ### Refresh reconciliation (C4) -/

/-- The reconciliation contract of refresh_projects: entries whose project
is still in the fetched list keep their next run, projects newly appearing
get a next run freshly resolved from now and strictly in the future, and
every surviving entry belongs to a fetched project id. -/
def RefreshSpec (resolve : ProjectConfig → Int → Int)
    (fetched : List ProjectConfig) (now : Int) (s : SchedulerState) : Prop :=
  (∀ e ∈ s.queue, e.2.1 ∈ fetched.map (fun p => p.id) →
    ∃ e2 ∈ (refreshProjects resolve fetched now s).queue,
      e2.2.1 = e.2.1 ∧ e2.2.2.next_run = e.2.2.next_run ∧
        e2.1 = e.2.2.next_run) ∧
  (∀ p ∈ fetched, p.id ∉ queuePids s.queue →
    (resolve p now, p.id, (⟨p, resolve p now, none⟩ : ScheduledProject)) ∈
        (refreshProjects resolve fetched now s).queue ∧
      now < resolve p now) ∧
  (∀ e2 ∈ (refreshProjects resolve fetched now s).queue,
    e2.2.1 ∈ fetched.map (fun p => p.id))

/-- C4: refresh preserves next_run for projects present before and after,
assigns a freshly resolved forward-looking next_run exactly to the newly
appearing projects, and drops every entry whose project is absent from the
fetched list. -/
theorem refreshProjects_spec (resolve : ProjectConfig → Int → Int)
    (fetched : List ProjectConfig) (now : Int) (s : SchedulerState)
    (hres : ∀ p t, t < resolve p t)
    (hq : (queuePids s.queue).Nodup) :
    RefreshSpec resolve fetched now s := by
  have hqueue := refreshProjects_queue resolve fetched now s
  refine ⟨?_, ?_, ?_⟩
  · intro e he hid
    simp only [List.mem_map] at hid
    obtain ⟨p, hp, hpid⟩ := hid
    refine ⟨refreshEntry resolve
      (s.queue.foldl (fun d e => dictInsert d e.2.1 e.2.2) []) now p,
      ?_, ?_⟩
    · rw [hqueue]
      exact List.mem_map_of_mem _ hp
    · have hlook : dictLookup
          (s.queue.foldl (fun d e => dictInsert d e.2.1 e.2.2) []) p.id =
            some e.2.2 := by
        rw [hpid]
        exact dictLookup_fold_of_mem s.queue hq [] e he
      unfold refreshEntry
      rw [hlook]
      exact ⟨hpid, rfl, rfl⟩
  · intro p hp hnot
    constructor
    · rw [hqueue]
      have hlook : dictLookup
          (s.queue.foldl (fun d e => dictInsert d e.2.1 e.2.2) []) p.id =
            none := by
        rw [dictLookup_fold_of_not_mem s.queue [] p.id hnot]
        rfl
      have : refreshEntry resolve
          (s.queue.foldl (fun d e => dictInsert d e.2.1 e.2.2) []) now p =
            (resolve p now, p.id, ⟨p, resolve p now, none⟩) := by
        unfold refreshEntry
        rw [hlook]
      rw [← this]
      exact List.mem_map_of_mem _ hp
    · exact hres p now
  · intro e2 he2
    rw [hqueue] at he2
    simp only [List.mem_map] at he2
    obtain ⟨p, hp, hpe⟩ := he2
    refine List.mem_map.mpr ⟨p, hp, ?_⟩
    rw [← hpe]
    unfold refreshEntry
    cases dictLookup (s.queue.foldl
        (fun d e => dictInsert d e.2.1 e.2.2) []) p.id <;> rfl

theorem refreshProjects_spec_witness :
    (queuePids popWitnessState.queue).Nodup ∧
      RefreshSpec resolveHour [projA] 100 popWitnessState :=
  ⟨by decide,
    refreshProjects_spec resolveHour [projA] 100 popWitnessState
      (fun p t => by simp [resolveHour]) (by decide)⟩

/-! ### Reschedule after execution (C9) -/

/-- C9: when a project is reinserted after its execution finishes, the new
entry carries a next run resolved from the reinsertion instant now, not
from the missed next_run of the popped entry, and that next run is strictly
in the future. -/
theorem rescheduleProject_from_now (resolve : ProjectConfig → Int → Int)
    (projectId : String) (now : Int) (s : SchedulerState) (p : ProjectConfig)
    (hres : ∀ q t, t < resolve q t)
    (hp : dictLookup s.projects projectId = some p) :
    (rescheduleProject resolve projectId now s).queue =
      heapPush s.queue
        (resolve p now, projectId, ⟨p, resolve p now, none⟩) ∧
      now < resolve p now := by
  unfold rescheduleProject
  rw [hp]
  exact ⟨rfl, hres p now⟩

theorem rescheduleProject_from_now_witness :
    (rescheduleProject resolveHour "alpha" 77 popWitnessState).queue =
      heapPush popWitnessState.queue
        (resolveHour projA 77, "alpha", ⟨projA, resolveHour projA 77, none⟩) ∧
      (77 : Int) < resolveHour projA 77 :=
  rescheduleProject_from_now resolveHour "alpha" 77 popWitnessState projA
    (fun q t => by simp [resolveHour]) (by decide)

/-! ## Database collaborator (geppetto/db/client.py)

The execution table is a list of records plus the next fresh primary key.
Only the operations the executor calls are embedded. -/

/-- The execution store behind DatabaseClient. -/
structure Db where
  executions : List ProjectExecution
  nextExecutionId : Nat
deriving DecidableEq, Repr

/-- DatabaseClient.create_execution: insert a fresh record and return the
updated store together with the new primary key. -/
def createExecution (db : Db) (projectId : String) (scheduledFor : Int)
    (status : ExecutionStatus) : Db × Nat :=
  let record : ProjectExecution :=
    { id := db.nextExecutionId
      project_id := projectId
      status := status
      scheduled_for := scheduledFor }
  ({ executions := db.executions ++ [record]
     nextExecutionId := db.nextExecutionId + 1 },
   db.nextExecutionId)

/-- DatabaseClient.update_execution_status: set the status and exactly the
optional fields that were passed, leaving omitted fields untouched. -/
def updateExecutionStatus (db : Db) (executionId : Nat)
    (status : ExecutionStatus) (startedAt finishedAt : Option Int)
    (exitCode : Option Int) (errorMessage : Option String) : Db :=
  { db with executions := db.executions.map (fun r =>
      if r.id = executionId then
        { r with status := status
                 started_at := if startedAt.isSome then startedAt
                   else r.started_at
                 finished_at := if finishedAt.isSome then finishedAt
                   else r.finished_at
                 exit_code := if exitCode.isSome then exitCode
                   else r.exit_code
                 error_message := if errorMessage.isSome then errorMessage
                   else r.error_message }
      else r) }

/-- DatabaseClient.get_execution. -/
def getExecution (db : Db) (executionId : Nat) : Option ProjectExecution :=
  db.executions.find? (fun r => decide (r.id = executionId))

/-- DatabaseClient.get_running_execution: the first record of the project
whose status is running. -/
def getRunningExecution (db : Db) (projectId : String) :
    Option ProjectExecution :=
  db.executions.find? (fun r =>
    decide (r.project_id = projectId) &&
      decide (r.status = ExecutionStatus.running))

/-- Whether the store holds a running execution for the project. -/
def hasRunning (db : Db) (projectId : String) : Bool :=
  (getRunningExecution db projectId).isSome

/-- Store well-formedness: every stored id is below the next fresh key. -/
def dbWF (db : Db) : Bool :=
  db.executions.all (fun r => decide (r.id < db.nextExecutionId))

/-! ## Execution state machine (geppetto/executor.py, ProjectExecutor.execute)

The subprocess, generator and rule fetch live outside the process; their
observable outcome for one run enters as a RunOutcome value.  A completed
subprocess carries its exit code and captured streams; timedOut is the
subprocess.TimeoutExpired path; raised is any other exception thrown during
the rule fetch, configuration parsing, code generation or launch, carrying
the text str(e).  The two wall-clock reads become startedAt and finishedAt
parameters, and the rules fetched for the project are passed as a list. -/

/-- Observable outcome of the guarded section of one execution. -/
inductive RunOutcome where
  | completed (exitCode : Int) (stdout stderr : String)
  | timedOut
  | raised (message : String)
deriving DecidableEq, Repr

/-- A discrepancy rule; only its identity matters to the executor, the
remaining fields are consumed by the external synthesizer. -/
structure DiscrepancyRule where
  rule_id : String
deriving DecidableEq, Repr

/-- ProjectExecutor.execute: create a pending record, cancel when another
running execution exists for a non-concurrent project, otherwise mark the
record running and classify the run outcome into the terminal status, then
return the stored record. -/
def executorExecute (timeout : Nat) (db : Db) (scheduled : ScheduledProject)
    (rules : List DiscrepancyRule) (outcome : RunOutcome)
    (startedAt finishedAt : Int) : Db × Option ProjectExecution :=
  let project := scheduled.project
  let projectId := project.id
  let created := createExecution db projectId scheduled.next_run
    ExecutionStatus.pending
  let db1 := created.1
  let executionId := created.2
  if !project.allow_concurrent &&
      (getRunningExecution db1 projectId).isSome then
    let db2 := updateExecutionStatus db1 executionId
      ExecutionStatus.cancelled none none none
      (some "Concurrent execution not allowed")
    (db2, getExecution db2 executionId)
  else
    let db2 := updateExecutionStatus db1 executionId
      ExecutionStatus.running (some startedAt) none none none
    let db3 :=
      if rules.isEmpty then
        updateExecutionStatus db2 executionId ExecutionStatus.failed
          none (some finishedAt) none
          (some (("No rules found for project " ++ projectId).take 1000))
      else
        match outcome with
        | RunOutcome.completed exitCode stdout stderr =>
          let classified : ExecutionStatus × Option String :=
            if exitCode = 0 then (ExecutionStatus.success, none)
            else if exitCode = 1 then (ExecutionStatus.success, none)
            else (ExecutionStatus.failed,
              some (if stderr = "" then stdout else stderr))
          updateExecutionStatus db2 executionId classified.1
            none (some finishedAt) (some exitCode)
            (match classified.2 with
             | none => none
             | some m => if m = "" then none else some (m.take 1000))
        | RunOutcome.timedOut =>
          updateExecutionStatus db2 executionId ExecutionStatus.timeout
            none (some finishedAt) none
            (some ("Execution timed out after " ++ toString timeout ++
              " seconds"))
        | RunOutcome.raised message =>
          updateExecutionStatus db2 executionId ExecutionStatus.failed
            none (some finishedAt) none (some (message.take 1000))
    (db3, getExecution db3 executionId)

/-! ### Executor lemmas -/

theorem getRunningExecution_create (db : Db) (projectId : String)
    (scheduledFor : Int) (pid2 : String) :
    getRunningExecution (createExecution db projectId scheduledFor
        ExecutionStatus.pending).1 pid2 =
      getRunningExecution db pid2 := by
  unfold getRunningExecution createExecution
  rw [List.find?_append]
  cases hf : db.executions.find? (fun r =>
      decide (r.project_id = pid2) &&
        decide (r.status = ExecutionStatus.running)) with
  | some x => simp [hf]
  | none => simp [List.find?]

theorem getExecution_create (db : Db) (projectId : String)
    (scheduledFor : Int) (status : ExecutionStatus)
    (hwf : dbWF db = true) :
    getExecution (createExecution db projectId scheduledFor status).1
        (createExecution db projectId scheduledFor status).2 =
      some { id := db.nextExecutionId, project_id := projectId,
             status := status, scheduled_for := scheduledFor } := by
  unfold getExecution createExecution
  rw [List.find?_append]
  have hnone : db.executions.find? (fun r =>
      decide (r.id = db.nextExecutionId)) = none := by
    rw [List.find?_eq_none]
    intro x hx
    unfold dbWF at hwf
    rw [List.all_eq_true] at hwf
    have := hwf x hx
    simp at this ⊢
    omega
  rw [hnone]
  simp [List.find?]

theorem getExecution_update (db : Db) (executionId : Nat)
    (status : ExecutionStatus) (startedAt finishedAt : Option Int)
    (exitCode : Option Int) (errorMessage : Option String) :
    getExecution (updateExecutionStatus db executionId status startedAt
        finishedAt exitCode errorMessage) executionId =
      (getExecution db executionId).map (fun r =>
        { r with status := status
                 started_at := if startedAt.isSome then startedAt
                   else r.started_at
                 finished_at := if finishedAt.isSome then finishedAt
                   else r.finished_at
                 exit_code := if exitCode.isSome then exitCode
                   else r.exit_code
                 error_message := if errorMessage.isSome then errorMessage
                   else r.error_message }) := by
  unfold getExecution updateExecutionStatus
  rw [List.find?_map]
  have hpf : ((fun r : ProjectExecution => decide (r.id = executionId)) ∘
      (fun r => if r.id = executionId then
        { r with status := status
                 started_at := if startedAt.isSome then startedAt
                   else r.started_at
                 finished_at := if finishedAt.isSome then finishedAt
                   else r.finished_at
                 exit_code := if exitCode.isSome then exitCode
                   else r.exit_code
                 error_message := if errorMessage.isSome then errorMessage
                   else r.error_message }
        else r)) = fun r : ProjectExecution => decide (r.id = executionId) := by
    funext r
    by_cases hr : r.id = executionId <;> simp [Function.comp, hr]
  rw [hpf]
  cases hf : db.executions.find? (fun r => decide (r.id = executionId)) with
  | none => simp
  | some r =>
    have hr : r.id = executionId := by simpa using List.find?_some hf
    simp [hr]

/-- Normal form of the record stored by execute when the concurrency guard
does not fire: running fields plus the classification of the outcome. -/
def execFinalRecord (timeout : Nat) (db : Db) (scheduled : ScheduledProject)
    (rules : List DiscrepancyRule) (outcome : RunOutcome)
    (startedAt finishedAt : Int) : ProjectExecution :=
  let base : ProjectExecution :=
    { id := db.nextExecutionId
      project_id := scheduled.project.id
      status := ExecutionStatus.running
      scheduled_for := scheduled.next_run
      started_at := some startedAt }
  if rules.isEmpty then
    { base with status := ExecutionStatus.failed
                finished_at := some finishedAt
                error_message := some (("No rules found for project " ++
                  scheduled.project.id).take 1000) }
  else
    match outcome with
    | RunOutcome.completed exitCode stdout stderr =>
      if exitCode = 0 ∨ exitCode = 1 then
        { base with status := ExecutionStatus.success
                    finished_at := some finishedAt
                    exit_code := some exitCode }
      else
        { base with status := ExecutionStatus.failed
                    finished_at := some finishedAt
                    exit_code := some exitCode
                    error_message :=
                      if (if stderr = "" then stdout else stderr) = "" then
                        none
                      else
                        some ((if stderr = "" then stdout
                          else stderr).take 1000) }
    | RunOutcome.timedOut =>
      { base with status := ExecutionStatus.timeout
                  finished_at := some finishedAt
                  error_message := some ("Execution timed out after " ++
                    toString timeout ++ " seconds") }
    | RunOutcome.raised message =>
      { base with status := ExecutionStatus.failed
                  finished_at := some finishedAt
                  error_message := some (message.take 1000) }

theorem executorExecute_no_cancel (timeout : Nat) (db : Db)
    (scheduled : ScheduledProject) (rules : List DiscrepancyRule)
    (outcome : RunOutcome) (startedAt finishedAt : Int)
    (hwf : dbWF db = true)
    (hguard : (!scheduled.project.allow_concurrent &&
      hasRunning db scheduled.project.id) = false) :
    (executorExecute timeout db scheduled rules outcome startedAt
        finishedAt).2 =
      some (execFinalRecord timeout db scheduled rules outcome startedAt
        finishedAt) := by
  have hcond : (!scheduled.project.allow_concurrent &&
      (getRunningExecution (createExecution db scheduled.project.id
        scheduled.next_run ExecutionStatus.pending).1
          scheduled.project.id).isSome) = false := by
    rw [getRunningExecution_create]
    exact hguard
  simp only [executorExecute, hcond, Bool.false_eq_true, if_false]
  by_cases hre : rules.isEmpty
  · simp only [hre, if_true]
    rw [getExecution_update, getExecution_update,
      getExecution_create _ _ _ _ hwf]
    simp [execFinalRecord, hre]
  · simp only [hre, Bool.false_eq_true, if_false]
    cases outcome with
    | completed exitCode stdout stderr =>
      by_cases h0 : exitCode = 0
      · simp only [h0, if_true]
        rw [getExecution_update, getExecution_update,
          getExecution_create _ _ _ _ hwf]
        simp [execFinalRecord, hre]
      · by_cases h1 : exitCode = 1
        · simp only [h0, h1, if_true, if_false]
          rw [getExecution_update, getExecution_update,
            getExecution_create _ _ _ _ hwf]
          simp [execFinalRecord, hre, h0, h1]
        · simp only [h0, h1, if_false]
          rw [getExecution_update, getExecution_update,
            getExecution_create _ _ _ _ hwf]
          simp [execFinalRecord, hre, h0, h1]
          intro h
          simp [h]
    | timedOut =>
      rw [getExecution_update, getExecution_update,
        getExecution_create _ _ _ _ hwf]
      simp [execFinalRecord, hre]
    | raised message =>
      rw [getExecution_update, getExecution_update,
        getExecution_create _ _ _ _ hwf]
      simp [execFinalRecord, hre]

theorem executorExecute_cancel (timeout : Nat) (db : Db)
    (scheduled : ScheduledProject) (rules : List DiscrepancyRule)
    (outcome : RunOutcome) (startedAt finishedAt : Int)
    (hwf : dbWF db = true)
    (hallow : scheduled.project.allow_concurrent = false)
    (hrun : hasRunning db scheduled.project.id = true) :
    (executorExecute timeout db scheduled rules outcome startedAt
        finishedAt).2 =
      some { id := db.nextExecutionId
             project_id := scheduled.project.id
             status := ExecutionStatus.cancelled
             scheduled_for := scheduled.next_run
             error_message := some "Concurrent execution not allowed" } := by
  have hcond : (!scheduled.project.allow_concurrent &&
      (getRunningExecution (createExecution db scheduled.project.id
        scheduled.next_run ExecutionStatus.pending).1
          scheduled.project.id).isSome) = true := by
    rw [getRunningExecution_create]
    unfold hasRunning at hrun
    simp [hallow, hrun]
  simp only [executorExecute, hcond, if_true]
  rw [getExecution_update, getExecution_create _ _ _ _ hwf]
  simp

/-! ### Outcome classification (C1, C2, C7) -/

/-- Classification contract of one completed or timed-out run: exit code 0
or 1 gives SUCCESS without error message; any other exit code gives FAILED
with the captured stderr (or stdout when stderr is empty) truncated to 1000
characters, or no message at all when both streams are empty; a timeout
gives TIMEOUT with the generated message naming the configured limit. -/
def ExitClassificationSpec (timeout : Nat) (db : Db)
    (scheduled : ScheduledProject) (rules : List DiscrepancyRule)
    (exitCode : Int) (stdout stderr : String)
    (startedAt finishedAt : Int) : Prop :=
  (∃ r, (executorExecute timeout db scheduled rules
      (RunOutcome.completed exitCode stdout stderr) startedAt finishedAt).2 =
        some r ∧
    ((exitCode = 0 ∨ exitCode = 1) →
      r.status = ExecutionStatus.success ∧ r.error_message = none) ∧
    (exitCode ≠ 0 → exitCode ≠ 1 →
      r.status = ExecutionStatus.failed ∧ r.exit_code = some exitCode ∧
      r.finished_at = some finishedAt ∧
      r.error_message =
        (if (if stderr = "" then stdout else stderr) = "" then none
         else some ((if stderr = "" then stdout else stderr).take 1000)))) ∧
  (∃ r, (executorExecute timeout db scheduled rules RunOutcome.timedOut
      startedAt finishedAt).2 = some r ∧
    r.status = ExecutionStatus.timeout ∧ r.finished_at = some finishedAt ∧
    r.error_message = some ("Execution timed out after " ++
      toString timeout ++ " seconds"))

/-- C1 (amended): the terminal status of a completed run is classified from
the exit code, with the error message drawn from the captured streams and
truncated, absent when both streams are empty, and a timeout yields TIMEOUT
with the generated limit message. -/
theorem executeExitClassification (timeout : Nat) (db : Db)
    (scheduled : ScheduledProject) (rules : List DiscrepancyRule)
    (exitCode : Int) (stdout stderr : String) (startedAt finishedAt : Int)
    (hwf : dbWF db = true) (hrules : rules ≠ [])
    (hguard : scheduled.project.allow_concurrent = true ∨
      hasRunning db scheduled.project.id = false) :
    ExitClassificationSpec timeout db scheduled rules exitCode stdout stderr
      startedAt finishedAt := by
  have hg : (!scheduled.project.allow_concurrent &&
      hasRunning db scheduled.project.id) = false := by
    rcases hguard with h | h <;> simp [h]
  have hre : rules.isEmpty = false := by
    simpa [List.isEmpty_iff] using hrules
  constructor
  · refine ⟨execFinalRecord timeout db scheduled rules
      (RunOutcome.completed exitCode stdout stderr) startedAt finishedAt,
      executorExecute_no_cancel _ _ _ _ _ _ _ hwf hg, ?_, ?_⟩
    · intro h01
      rcases h01 with h0 | h1
      · simp [execFinalRecord, hre, h0]
      · simp [execFinalRecord, hre, h1]
    · intro h0 h1
      simp [execFinalRecord, hre, h0, h1]
  · refine ⟨execFinalRecord timeout db scheduled rules RunOutcome.timedOut
      startedAt finishedAt,
      executorExecute_no_cancel _ _ _ _ _ _ _ hwf hg, ?_⟩
    simp [execFinalRecord, hre]

/-- Empty database store. -/
def db0 : Db := { executions := [], nextExecutionId := 0 }

/-- A single concrete rule. -/
def ruleW : DiscrepancyRule := { rule_id := "r1" }

/-- Concrete scheduled entry for project alpha. -/
def schedA : ScheduledProject := ⟨projA, 60, none⟩

theorem executeExitClassification_witness :
    (dbWF db0 = true ∧ ([ruleW] : List DiscrepancyRule) ≠ [] ∧
      hasRunning db0 projA.id = false) ∧
      ExitClassificationSpec 300 db0 schedA [ruleW] 2 "out" "err" 10 20 :=
  ⟨⟨by decide, by simp, by decide⟩,
    executeExitClassification 300 db0 schedA [ruleW] 2 "out" "err" 10 20
      (by decide) (by simp) (Or.inr (by decide))⟩

/-- C1 counterexample: a run that exits with code 2 while both captured
streams are empty is recorded FAILED with no error message at all, against
the claim that every FAILED record carries a non-empty error message. -/
theorem executeEmptyStreams_counterexample :
    ((executorExecute 300 db0 schedA [ruleW]
        (RunOutcome.completed 2 "" "") 10 20).2.map
      (fun r => (r.status, r.error_message))) =
      some (ExecutionStatus.failed, none) := by
  decide

/-- Cancellation contract of execute under the concurrency guard: the
record is created PENDING, ends CANCELLED with the fixed reason, is never
marked running, and the run outcome is never consumed because no subprocess
is started. -/
def ConcurrencyCancelledSpec (timeout : Nat) (db : Db)
    (scheduled : ScheduledProject) (rules : List DiscrepancyRule)
    (outcome : RunOutcome) (startedAt finishedAt : Int) : Prop :=
  (∃ r, (executorExecute timeout db scheduled rules outcome startedAt
      finishedAt).2 = some r ∧
    r.status = ExecutionStatus.cancelled ∧
    r.error_message = some "Concurrent execution not allowed" ∧
    r.started_at = none ∧ r.finished_at = none ∧ r.exit_code = none) ∧
  ((getExecution (createExecution db scheduled.project.id scheduled.next_run
      ExecutionStatus.pending).1
        (createExecution db scheduled.project.id scheduled.next_run
          ExecutionStatus.pending).2).map (fun r => r.status) =
    some ExecutionStatus.pending) ∧
  (∀ outcome2, executorExecute timeout db scheduled rules outcome startedAt
      finishedAt =
    executorExecute timeout db scheduled rules outcome2 startedAt finishedAt)

/-- C2 (amended): with concurrency disallowed and a RUNNING record present
for the project, the fresh record goes PENDING to CANCELLED with the fixed
reason Concurrent execution not allowed (capitalised as in the source), and
the run outcome is irrelevant because no subprocess is started. -/
theorem executeConcurrencyCancelled (timeout : Nat) (db : Db)
    (scheduled : ScheduledProject) (rules : List DiscrepancyRule)
    (outcome : RunOutcome) (startedAt finishedAt : Int)
    (hwf : dbWF db = true)
    (hallow : scheduled.project.allow_concurrent = false)
    (hrun : hasRunning db scheduled.project.id = true) :
    ConcurrencyCancelledSpec timeout db scheduled rules outcome startedAt
      finishedAt := by
  have hcond : (!scheduled.project.allow_concurrent &&
      (getRunningExecution (createExecution db scheduled.project.id
        scheduled.next_run ExecutionStatus.pending).1
          scheduled.project.id).isSome) = true := by
    rw [getRunningExecution_create]
    unfold hasRunning at hrun
    simp [hallow, hrun]
  refine ⟨?_, ?_, ?_⟩
  · exact ⟨_, executorExecute_cancel timeout db scheduled rules outcome
      startedAt finishedAt hwf hallow hrun, rfl, rfl, rfl, rfl, rfl⟩
  · rw [getExecution_create _ _ _ _ hwf]
    rfl
  · intro outcome2
    simp only [executorExecute, hcond, if_true]

/-- A RUNNING execution record of project alpha. -/
def runningRec : ProjectExecution :=
  { id := 0
    project_id := "alpha"
    status := ExecutionStatus.running
    scheduled_for := 0 }

/-- A store holding one RUNNING execution of project alpha. -/
def dbRunning : Db :=
  { executions := [runningRec]
    nextExecutionId := 1 }

theorem executeConcurrencyCancelled_witness :
    (dbWF dbRunning = true ∧ projA.allow_concurrent = false ∧
      hasRunning dbRunning projA.id = true) ∧
      ConcurrencyCancelledSpec 300 dbRunning schedA [ruleW]
        (RunOutcome.completed 0 "" "") 10 20 :=
  ⟨⟨by decide, by decide, by decide⟩,
    executeConcurrencyCancelled 300 dbRunning schedA [ruleW]
      (RunOutcome.completed 0 "" "") 10 20 (by decide) (by decide)
      (by decide)⟩

/-- C2 counterexample: the fixed cancellation reason stored by the source is
capitalised, Concurrent execution not allowed, so it differs from the
lower-case reason quoted by the claim. -/
theorem executeConcurrentMessage_counterexample :
    ((executorExecute 300 dbRunning schedA [ruleW]
        (RunOutcome.completed 0 "" "") 10 20).2.map
      (fun r => (r.status, r.error_message))) =
      some (ExecutionStatus.cancelled,
        some "Concurrent execution not allowed") ∧
    ¬ ((executorExecute 300 dbRunning schedA [ruleW]
        (RunOutcome.completed 0 "" "") 10 20).2.map
      (fun r => r.error_message)) =
      some (some "concurrent execution not allowed") := by
  constructor
  · decide
  · decide

/-- Error containment contract of execute: an empty rule set, a raised
exception or a timeout always leaves a stored record in a terminal FAILED
or TIMEOUT status with finished_at stamped, a truncated message on FAILED
and the generated limit message on TIMEOUT; nothing propagates. -/
def ExceptionsTerminalSpec (timeout : Nat) (db : Db)
    (scheduled : ScheduledProject) (rules : List DiscrepancyRule)
    (outcome : RunOutcome) (startedAt finishedAt : Int) : Prop :=
  ∃ r, (executorExecute timeout db scheduled rules outcome startedAt
      finishedAt).2 = some r ∧
    (r.status = ExecutionStatus.failed ∨
      r.status = ExecutionStatus.timeout) ∧
    r.finished_at = some finishedAt ∧
    (r.status = ExecutionStatus.failed →
      ∃ s0 : String, r.error_message = some (s0.take 1000)) ∧
    (r.status = ExecutionStatus.timeout →
      r.error_message = some ("Execution timed out after " ++
        toString timeout ++ " seconds"))

/-- C7: every exception path of the guarded section, and the timeout path,
is caught inside execute and converted into a returned record with a
terminal FAILED or TIMEOUT status, finished_at stamped and the message
truncated; execute is a total function and never propagates these
failures. -/
theorem executeExceptionsTerminal (timeout : Nat) (db : Db)
    (scheduled : ScheduledProject) (rules : List DiscrepancyRule)
    (outcome : RunOutcome) (startedAt finishedAt : Int)
    (hwf : dbWF db = true)
    (hguard : scheduled.project.allow_concurrent = true ∨
      hasRunning db scheduled.project.id = false)
    (hexc : rules = [] ∨ outcome = RunOutcome.timedOut ∨
      ∃ m, outcome = RunOutcome.raised m) :
    ExceptionsTerminalSpec timeout db scheduled rules outcome startedAt
      finishedAt := by
  have hg : (!scheduled.project.allow_concurrent &&
      hasRunning db scheduled.project.id) = false := by
    rcases hguard with h | h <;> simp [h]
  refine ⟨execFinalRecord timeout db scheduled rules outcome startedAt
    finishedAt, executorExecute_no_cancel _ _ _ _ _ _ _ hwf hg, ?_⟩
  rcases hexc with rfl | rfl | ⟨m, rfl⟩
  · refine ⟨Or.inl (by simp [execFinalRecord]), by simp [execFinalRecord],
      fun _ => ⟨"No rules found for project " ++ scheduled.project.id,
        by simp [execFinalRecord]⟩,
      fun h => absurd h (by simp [execFinalRecord])⟩
  · by_cases hre : rules.isEmpty
    · refine ⟨Or.inl (by simp [execFinalRecord, hre]),
        by simp [execFinalRecord, hre],
        fun _ => ⟨"No rules found for project " ++ scheduled.project.id,
          by simp [execFinalRecord, hre]⟩,
        fun h => absurd h (by simp [execFinalRecord, hre])⟩
    · refine ⟨Or.inr (by simp [execFinalRecord, hre]),
        by simp [execFinalRecord, hre],
        fun h => absurd h (by simp [execFinalRecord, hre]),
        fun _ => by simp [execFinalRecord, hre]⟩
  · by_cases hre : rules.isEmpty
    · refine ⟨Or.inl (by simp [execFinalRecord, hre]),
        by simp [execFinalRecord, hre],
        fun _ => ⟨"No rules found for project " ++ scheduled.project.id,
          by simp [execFinalRecord, hre]⟩,
        fun h => absurd h (by simp [execFinalRecord, hre])⟩
    · refine ⟨Or.inl (by simp [execFinalRecord, hre]),
        by simp [execFinalRecord, hre],
        fun _ => ⟨m, by simp [execFinalRecord, hre]⟩,
        fun h => absurd h (by simp [execFinalRecord, hre])⟩

theorem executeExceptionsTerminal_witness :
    (dbWF db0 = true ∧ hasRunning db0 projA.id = false) ∧
      ExceptionsTerminalSpec 300 db0 schedA [ruleW]
        (RunOutcome.raised "boom") 10 20 :=
  ⟨⟨by decide, by decide⟩,
    executeExceptionsTerminal 300 db0 schedA [ruleW]
      (RunOutcome.raised "boom") 10 20 (by decide) (Or.inr (by decide))
      (Or.inr (Or.inr ⟨"boom", rfl⟩))⟩

/-! ## Scheduling loop (scheduler.py, ProjectScheduler._scheduler_loop)

One loop iteration, with the callback installed by main.py pointing at the
executor.  The callback result records whether the Python call returned or
raised: the try block increments successful_executions when the call
returns and failed_executions when it raises, and the finally block always
increments total_executions, clears the currently executing marker and
reschedules the project while it is still active.  The wall clock reads
become the now and afterNow parameters. -/

/-- Result of invoking the execution callback: the Python call either
returns a value (the record, possibly absent) or raises. -/
inductive CallbackResult where
  | ret (result : Option ProjectExecution)
  | exn (message : String)
deriving DecidableEq, Repr

/-- One iteration of the scheduler loop body. -/
def loopIteration (resolve : ProjectConfig → Int → Int)
    (fetched : List ProjectConfig) (now afterNow : Int)
    (onExecute : Option (ScheduledProject → CallbackResult))
    (s : SchedulerState) : SchedulerState :=
  let s0 := { s with status := { s.status with last_check_time := some now } }
  let popped := popIfDue s0 now
  match popped.1, onExecute with
  | some scheduled, some callback =>
    let projectId := scheduled.project.id
    let s2 := refreshProjects resolve fetched now popped.2
    match dictLookup s2.projects projectId with
    | none => s2
    | some updatedProject =>
      let scheduled2 := { scheduled with project := updatedProject }
      let s3 := { s2 with status :=
        { s2.status with currently_executing := some projectId } }
      let s4 :=
        match callback scheduled2 with
        | CallbackResult.ret _ =>
          { s3 with status := { s3.status with
            successful_executions := s3.status.successful_executions + 1 } }
        | CallbackResult.exn _ =>
          { s3 with status := { s3.status with
            failed_executions := s3.status.failed_executions + 1 } }
      let s5 := { s4 with status := { s4.status with
        total_executions := s4.status.total_executions + 1
        currently_executing := none } }
      if (dictLookup s5.projects projectId).isSome then
        rescheduleProject resolve projectId afterNow s5
      else s5
  | _, _ => popped.2

theorem refresh_succ_eq (resolve : ProjectConfig → Int → Int)
    (fetched : List ProjectConfig) (now : Int) (s : SchedulerState) :
    (refreshProjects resolve fetched now s).status.successful_executions =
      s.status.successful_executions := rfl

theorem refresh_fail_eq (resolve : ProjectConfig → Int → Int)
    (fetched : List ProjectConfig) (now : Int) (s : SchedulerState) :
    (refreshProjects resolve fetched now s).status.failed_executions =
      s.status.failed_executions := rfl

theorem refresh_total_eq (resolve : ProjectConfig → Int → Int)
    (fetched : List ProjectConfig) (now : Int) (s : SchedulerState) :
    (refreshProjects resolve fetched now s).status.total_executions =
      s.status.total_executions := rfl

theorem popIfDue_counters (s : SchedulerState) (now : Int) :
    (popIfDue s now).2.status.successful_executions =
        s.status.successful_executions ∧
      (popIfDue s now).2.status.failed_executions =
        s.status.failed_executions ∧
      (popIfDue s now).2.status.total_executions =
        s.status.total_executions := by
  unfold popIfDue
  cases qMin s.queue with
  | none => exact ⟨rfl, rfl, rfl⟩
  | some e =>
    by_cases hdue : e.1 ≤ now
    · simp [hdue]
    · simp [hdue]

theorem reschedule_succ_eq (resolve : ProjectConfig → Int → Int)
    (projectId : String) (now : Int) (s : SchedulerState) :
    (rescheduleProject resolve projectId now s).status.successful_executions =
      s.status.successful_executions := by
  unfold rescheduleProject
  cases dictLookup s.projects projectId <;> rfl

theorem reschedule_fail_eq (resolve : ProjectConfig → Int → Int)
    (projectId : String) (now : Int) (s : SchedulerState) :
    (rescheduleProject resolve projectId now s).status.failed_executions =
      s.status.failed_executions := by
  unfold rescheduleProject
  cases dictLookup s.projects projectId <;> rfl

theorem reschedule_total_eq (resolve : ProjectConfig → Int → Int)
    (projectId : String) (now : Int) (s : SchedulerState) :
    (rescheduleProject resolve projectId now s).status.total_executions =
      s.status.total_executions := by
  unfold rescheduleProject
  cases dictLookup s.projects projectId <;> rfl

/-- Counter behaviour of one dispatching loop iteration: the cumulative
counters are driven solely by whether the callback returned or raised, not
by the terminal status of the execution record it produced. -/
def LoopCountersSpec (resolve : ProjectConfig → Int → Int)
    (fetched : List ProjectConfig) (now afterNow : Int)
    (callback : ScheduledProject → CallbackResult) (s : SchedulerState)
    (scheduled : ScheduledProject) (updatedProject : ProjectConfig) : Prop :=
  (∀ result, callback { scheduled with project := updatedProject } =
      CallbackResult.ret result →
    (loopIteration resolve fetched now afterNow (some callback)
        s).status.successful_executions =
      s.status.successful_executions + 1 ∧
    (loopIteration resolve fetched now afterNow (some callback)
        s).status.failed_executions = s.status.failed_executions ∧
    (loopIteration resolve fetched now afterNow (some callback)
        s).status.total_executions = s.status.total_executions + 1) ∧
  (∀ message, callback { scheduled with project := updatedProject } =
      CallbackResult.exn message →
    (loopIteration resolve fetched now afterNow (some callback)
        s).status.failed_executions = s.status.failed_executions + 1 ∧
    (loopIteration resolve fetched now afterNow (some callback)
        s).status.successful_executions = s.status.successful_executions ∧
    (loopIteration resolve fetched now afterNow (some callback)
        s).status.total_executions = s.status.total_executions + 1)

/-- C8 (amended): when a due entry is dispatched, successful_executions
increments exactly when the callback returns without raising, whatever
terminal status the produced record carries, failed_executions increments
exactly when the callback raises, and total_executions increments in either
case. -/
theorem loopIteration_counters (resolve : ProjectConfig → Int → Int)
    (fetched : List ProjectConfig) (now afterNow : Int)
    (callback : ScheduledProject → CallbackResult) (s : SchedulerState)
    (scheduled : ScheduledProject) (s1 : SchedulerState)
    (updatedProject : ProjectConfig)
    (hpop : popIfDue { s with status :=
        { s.status with last_check_time := some now } } now =
      (some scheduled, s1))
    (hact : dictLookup (refreshProjects resolve fetched now s1).projects
        scheduled.project.id = some updatedProject) :
    LoopCountersSpec resolve fetched now afterNow callback s scheduled
      updatedProject := by
  have hs1 := popIfDue_counters
    { s with status := { s.status with last_check_time := some now } } now
  rw [hpop] at hs1
  have hA := hs1.1
  have hB := hs1.2.1
  have hC := hs1.2.2
  simp at hA hB hC
  constructor
  · intro result hcb
    simp only [loopIteration, hpop, hact, hcb]
    split
    · simp [reschedule_succ_eq, reschedule_fail_eq, reschedule_total_eq,
        refresh_succ_eq, refresh_fail_eq, refresh_total_eq, hA, hB, hC]
    · simp [refresh_succ_eq, refresh_fail_eq, refresh_total_eq, hA, hB, hC]
  · intro message hcb
    simp only [loopIteration, hpop, hact, hcb]
    split
    · simp [reschedule_succ_eq, reschedule_fail_eq, reschedule_total_eq,
        refresh_succ_eq, refresh_fail_eq, refresh_total_eq, hA, hB, hC]
    · simp [refresh_succ_eq, refresh_fail_eq, refresh_total_eq, hA, hB, hC]

/-- Scheduler state right after loading project alpha at instant 0. -/
def loopW_s : SchedulerState := loadProjects resolveHour [projA] 0 initState

/-- The state left by the pop of the due alpha entry at instant 100. -/
def loopW_s1 : SchedulerState :=
  (popIfDue { loopW_s with status :=
    { loopW_s.status with last_check_time := some 100 } } 100).2

/-- The callback wired by main.py: run the executor and return its record,
here on a subprocess that exits with code 2. -/
def loopW_cb : ScheduledProject → CallbackResult :=
  fun sp => CallbackResult.ret
    (executorExecute 300 db0 sp [ruleW]
      (RunOutcome.completed 2 "" "boom") 100 101).2

theorem loopIteration_counters_witness :
    (popIfDue { loopW_s with status :=
        { loopW_s.status with last_check_time := some 100 } } 100 =
      (some ⟨projA, 60, none⟩, loopW_s1)) ∧
      LoopCountersSpec resolveHour [projA] 100 101 loopW_cb loopW_s
        ⟨projA, 60, none⟩ projA :=
  ⟨by decide,
    loopIteration_counters resolveHour [projA] 100 101 loopW_cb loopW_s
      ⟨projA, 60, none⟩ loopW_s1 projA (by decide) (by decide)⟩

/-- C8 counterexample: dispatching a due job whose execution record ends
FAILED still increments successful_executions and leaves
failed_executions untouched, because the loop counts callback returns and
the executor returns its record instead of raising. -/
theorem loopCounters_counterexample :
    ((executorExecute 300 db0 ⟨projA, 60, none⟩ [ruleW]
        (RunOutcome.completed 2 "" "boom") 100 101).2.map
      (fun r => r.status) = some ExecutionStatus.failed) ∧
    (loopIteration resolveHour [projA] 100 101 (some loopW_cb)
        loopW_s).status.successful_executions = 1 ∧
    (loopIteration resolveHour [projA] 100 101 (some loopW_cb)
        loopW_s).status.failed_executions = 0 ∧
    (loopIteration resolveHour [projA] 100 101 (some loopW_cb)
        loopW_s).status.total_executions = 1 := by
  refine ⟨by decide, by decide, by decide, by decide⟩

/-! ## Artifact cleanup (executor.py, ProjectExecutor.cleanup_project)

The filesystem is external: whether the project directory exists and
whether its removal by shutil.rmtree raises enter as inputs, and the
RuntimeError raised to the caller is the error branch of the result. -/

/-- ProjectExecutor.cleanup_project: false when the directory is absent,
true after successful removal, an error raised to the caller exactly when
removal of an existing directory fails. -/
def cleanupProject (dirExists : Bool) (rmtreeError : Option String) :
    Except String Bool :=
  if !dirExists then Except.ok false
  else
    match rmtreeError with
    | none => Except.ok true
    | some e =>
      Except.error ("Failed to clean up project directory: " ++ e)

/-- C10: cleanup returns false when the directory does not exist, true
after successful removal, and raises a cleanup error to its caller exactly
when removal of an existing directory fails. -/
theorem cleanupProject_spec (dirExists : Bool) (rmtreeError : Option String) :
    (dirExists = false → cleanupProject dirExists rmtreeError =
      Except.ok false) ∧
    (dirExists = true → rmtreeError = none →
      cleanupProject dirExists rmtreeError = Except.ok true) ∧
    (∀ e, dirExists = true → rmtreeError = some e →
      cleanupProject dirExists rmtreeError =
        Except.error ("Failed to clean up project directory: " ++ e)) ∧
    (∀ msg, cleanupProject dirExists rmtreeError = Except.error msg →
      dirExists = true ∧ rmtreeError.isSome = true) := by
  refine ⟨?_, ?_, ?_, ?_⟩
  · intro h
    simp [cleanupProject, h]
  · intro h hr
    simp [cleanupProject, h, hr]
  · intro e h hr
    simp [cleanupProject, h, hr]
  · intro msg h
    cases dirExists with
    | false => simp [cleanupProject] at h
    | true =>
      cases rmtreeError with
      | none => simp [cleanupProject] at h
      | some e => exact ⟨rfl, rfl⟩

theorem cleanupProject_spec_witness :
    cleanupProject true (some "denied") =
        Except.error ("Failed to clean up project directory: " ++ "denied") ∧
      cleanupProject false none = Except.ok false :=
  ⟨(cleanupProject_spec true (some "denied")).2.2.1 "denied" rfl rfl,
    (cleanupProject_spec false none).1 rfl⟩

end Cricket
